import Mathlib

/-!
Verification of the nodeBubblewrap conversion service (src/src/app.js, the
variant using `activeJobs`/`maxJobs`, `robustFetch` and per-domain keystores).

The development shallowly embeds the orchestration layer of the service:

* the job scheduler (`processQueue`, the `jobQueue` list, the `activeJobs`
  counter and the in-memory `jobs` map mirrored to the SQLite `jobs` table)
  as a labelled transition system `Step` over `SchedState`;
* the `/convert` endpoint as a pure function `convert`;
* the `robustFetch` retry wrapper as a fuelled recursion `robustFetchGo`;
* the per-domain signing-identity lookup/create sequence of
  `processConversionJob` as `getOrCreateIdentity` over a `KeystoreState`;
* the output-artifact naming (`urlHash`/timestamp) and the
  `/download/:filename` path resolution.

JavaScript runs the bodies of the scheduler callbacks atomically on a single
event loop; each transition of `Step` is one such synchronous block (a
submission handler, one iteration of the dispatch loop, or the
`.then/.catch/.finally` completion callbacks of a dispatched job).
-/

set_option maxHeartbeats 1000000

namespace NodeBubblewrap

/-- One record of the in-memory `jobs` map (mirrored to the SQLite `jobs`
table): `status` is the string written by the code, `files` the result object
`(apk, aab)` set on completion, `error` the user-facing error message. -/
structure JobRecord where
  status : String
  files : Option (String × String)
  error : Option String
  deriving DecidableEq, Repr

/-- An entry of the in-memory `jobQueue` array, as pushed by the `/convert`
handler.  `seq` is ghost instrumentation recording the submission index
(entries are pushed with strictly increasing `seq`). -/
structure QEntry where
  jobId : String
  url : String
  manifestUrl : String
  seq : Nat
  deriving DecidableEq, Repr

/-- The scheduler-owned state: the `jobs` map, the `jobQueue` array, the set
of jobs whose `processConversionJob` promise is currently pending (`running`,
ghost refinement of the `activeJobs` counter), the `activeJobs` counter
itself, and the next submission index. -/
structure SchedState where
  jobs : String → Option JobRecord
  jobQueue : List QEntry
  running : List QEntry
  activeJobs : Nat
  nextSeq : Nat

/-- Default concurrency cap: `const maxJobs = process.env.maxProcess || 2`. -/
def maxJobsDefault : Nat := 2

/-- Pointwise update of the `jobs` map. -/
def setJob (m : String → Option JobRecord) (id : String) (r : JobRecord) :
    String → Option JobRecord :=
  fun x => if x = id then some r else m x

/-- The record created by the `/convert` handler:
`jobs[jobId] = \x7b status: 'pending', files: null, error: null \x7d`. -/
def pendingRecord : JobRecord :=
  { status := "pending", files := none, error := none }

/-- Empty server state at process start. -/
def initState : SchedState :=
  { jobs := fun _ => none, jobQueue := [], running := [], activeJobs := 0,
    nextSeq := 0 }

/-- Effect of the submission block of the `/convert` handler on the scheduler
state: store the pending record, persist it, push the queue entry at the
tail. -/
def submitEffect (s : SchedState) (id url manifestUrl : String) : SchedState :=
  { jobs := setJob s.jobs id pendingRecord
    jobQueue := s.jobQueue ++ [⟨id, url, manifestUrl, s.nextSeq⟩]
    running := s.running
    activeJobs := s.activeJobs
    nextSeq := s.nextSeq + 1 }

/-- Effect of one iteration of the `while` loop of `processQueue`:
`jobQueue.shift()`, `activeJobs++`, hand the entry to
`processConversionJob`. -/
def dispatchEffect (s : SchedState) (e : QEntry) (rest : List QEntry) :
    SchedState :=
  { s with jobQueue := rest, running := e :: s.running,
           activeJobs := s.activeJobs + 1 }

/-- Effect of the `.then` + `.finally` callbacks of a successfully completed
job: mark completed with the files object, leave `error` untouched,
`activeJobs--`. -/
def finishOkEffect (s : SchedState) (e : QEntry) (r : JobRecord)
    (files : String × String) : SchedState :=
  { s with running := s.running.erase e, activeJobs := s.activeJobs - 1,
           jobs := setJob s.jobs e.jobId
             { r with status := "completed", files := some files } }

/-- Effect of the `.catch` + `.finally` callbacks of a failed job: mark
failed with the fixed generic message, leave `files` untouched,
`activeJobs--`. -/
def finishErrEffect (s : SchedState) (e : QEntry) (r : JobRecord) :
    SchedState :=
  { s with running := s.running.erase e, activeJobs := s.activeJobs - 1,
           jobs := setJob s.jobs e.jobId
             { r with status := "failed",
                      error := some "Internal server error." } }

/-- Labels for the atomic scheduler transitions. -/
inductive Event where
  | submit (id url manifestUrl : String)
  | dispatch (e : QEntry)
  | finishOk (e : QEntry) (files : String × String)
  | finishErr (e : QEntry)
  deriving DecidableEq, Repr

/-- One atomic synchronous block of the scheduler, with concurrency cap `N`.
`submit` requires a fresh uuid; `dispatch` fires only while
`activeJobs < maxJobs` and pops the head of the queue; the two finish events
fire exactly once for a dispatched job (its entry is removed from
`running`). -/
inductive Step (N : Nat) : SchedState → Event → SchedState → Prop where
  | submit (s : SchedState) (id url manifestUrl : String)
      (hfresh : s.jobs id = none) :
      Step N s (.submit id url manifestUrl) (submitEffect s id url manifestUrl)
  | dispatch (s : SchedState) (e : QEntry) (rest : List QEntry)
      (hq : s.jobQueue = e :: rest) (hcap : s.activeJobs < N) :
      Step N s (.dispatch e) (dispatchEffect s e rest)
  | finishOk (s : SchedState) (e : QEntry) (files : String × String)
      (r : JobRecord) (hrun : e ∈ s.running) (hrec : s.jobs e.jobId = some r) :
      Step N s (.finishOk e files) (finishOkEffect s e r files)
  | finishErr (s : SchedState) (e : QEntry) (r : JobRecord)
      (hrun : e ∈ s.running) (hrec : s.jobs e.jobId = some r) :
      Step N s (.finishErr e) (finishErrEffect s e r)

/-- States reachable from process start. -/
inductive Reachable (N : Nat) : SchedState → Prop where
  | init : Reachable N initState
  | step {s s' : SchedState} {e : Event} (h : Reachable N s)
      (hs : Step N s e s') : Reachable N s'

/-- Consistency of a stored record: a completed record carries a files
object and no error, a failed record carries no files and the fixed generic
message, and no record ever carries the status string "running". -/
def TerminalConsistent (r : JobRecord) : Prop :=
  (r.status = "completed" → r.files.isSome ∧ r.error = none) ∧
  (r.status = "failed" → r.files = none ∧ r.error = some "Internal server error.") ∧
  r.status ≠ "running"

/-- A queue or running entry always points at a stored pending record. -/
def PendingEntry (s : SchedState) (e : QEntry) : Prop :=
  ∃ r, s.jobs e.jobId = some r ∧ r.status = "pending" ∧ r.files = none ∧
    r.error = none

/-- Scheduler invariant. -/
def Inv (N : Nat) (s : SchedState) : Prop :=
  s.activeJobs = s.running.length ∧
  s.activeJobs ≤ N ∧
  (∀ e ∈ s.jobQueue, e.seq < s.nextSeq) ∧
  s.jobQueue.Pairwise (fun a b => a.seq < b.seq) ∧
  (∀ e ∈ s.jobQueue, PendingEntry s e) ∧
  (∀ e ∈ s.running, PendingEntry s e) ∧
  ((s.jobQueue ++ s.running).map QEntry.jobId).Nodup ∧
  (∀ id r, s.jobs id = some r → TerminalConsistent r)

theorem setJob_self (m : String → Option JobRecord) (id : String)
    (r : JobRecord) : setJob m id r id = some r := by
  simp [setJob]

theorem setJob_ne (m : String → Option JobRecord) {x id : String}
    (r : JobRecord) (h : x ≠ id) : setJob m id r x = m x := by
  simp [setJob, h]

theorem inv_init (N : Nat) : Inv N initState := by
  refine ⟨rfl, Nat.zero_le N, ?_, ?_, ?_, ?_, ?_, ?_⟩ <;>
    simp [initState, PendingEntry]

theorem inv_submit {N : Nat} {s : SchedState} {id url m : String}
    (hfresh : s.jobs id = none) (hinv : Inv N s) :
    Inv N (submitEffect s id url m) := by
  obtain ⟨hlen, hcap, hseq, hsort, hqp, hrp, hnd, hterm⟩ := hinv
  refine ⟨hlen, hcap, ?_, ?_, ?_, ?_, ?_, ?_⟩
  · intro e he
    simp only [submitEffect] at he ⊢
    rcases List.mem_append.1 he with h | h
    · exact Nat.lt_trans (hseq e h) (Nat.lt_succ_self _)
    · simp only [List.mem_singleton] at h
      subst h
      exact Nat.lt_succ_self _
  · simp only [submitEffect]
    rw [List.pairwise_append]
    refine ⟨hsort, List.pairwise_singleton _ _, ?_⟩
    intro a ha b hb
    simp only [List.mem_singleton] at hb
    subst hb
    exact hseq a ha
  · intro e he
    simp only [submitEffect] at he
    rcases List.mem_append.1 he with h | h
    · by_cases hid : e.jobId = id
      · exact ⟨pendingRecord, by simp [submitEffect, hid, setJob_self], rfl,
          rfl, rfl⟩
      · obtain ⟨r, hr, h1, h2, h3⟩ := hqp e h
        exact ⟨r, by simpa [submitEffect, setJob_ne _ _ hid] using hr, h1, h2,
          h3⟩
    · simp only [List.mem_singleton] at h
      subst h
      exact ⟨pendingRecord, by simp [submitEffect, setJob_self], rfl, rfl, rfl⟩
  · intro e he
    simp only [submitEffect] at he
    by_cases hid : e.jobId = id
    · exact ⟨pendingRecord, by simp [submitEffect, hid, setJob_self], rfl, rfl,
        rfl⟩
    · obtain ⟨r, hr, h1, h2, h3⟩ := hrp e he
      exact ⟨r, by simpa [submitEffect, setJob_ne _ _ hid] using hr, h1, h2, h3⟩
  · simp only [submitEffect]
    have hre : (s.jobQueue ++ [(⟨id, url, m, s.nextSeq⟩ : QEntry)]) ++ s.running
        = s.jobQueue ++ (⟨id, url, m, s.nextSeq⟩ : QEntry) :: s.running := by
      simp
    rw [hre, List.map_append, List.map_cons, List.nodup_middle,
      ← List.map_append]
    refine List.nodup_cons.2 ⟨?_, hnd⟩
    intro hmem
    obtain ⟨e, hme, hje⟩ := List.mem_map.1 hmem
    rcases List.mem_append.1 hme with h | h
    · obtain ⟨r, hr, -, -, -⟩ := hqp e h
      rw [hje, hfresh] at hr
      exact Option.noConfusion hr
    · obtain ⟨r, hr, -, -, -⟩ := hrp e h
      rw [hje, hfresh] at hr
      exact Option.noConfusion hr
  · intro id' r hr
    simp only [submitEffect] at hr
    by_cases hid : id' = id
    · subst hid
      rw [setJob_self] at hr
      cases hr
      exact ⟨by decide, by decide, by decide⟩
    · rw [setJob_ne _ _ hid] at hr
      exact hterm id' r hr

theorem inv_dispatch {N : Nat} {s : SchedState} {e : QEntry}
    {rest : List QEntry} (hq : s.jobQueue = e :: rest)
    (hcap : s.activeJobs < N) (hinv : Inv N s) :
    Inv N (dispatchEffect s e rest) := by
  obtain ⟨hlen, -, hseq, hsort, hqp, hrp, hnd, hterm⟩ := hinv
  have hemem : e ∈ s.jobQueue := by rw [hq]; exact List.mem_cons_self _ _
  refine ⟨?_, hcap, ?_, ?_, ?_, ?_, ?_, ?_⟩
  · simp only [dispatchEffect, List.length_cons, hlen]
  · intro e' he'
    exact hseq e' (by rw [hq]; exact List.mem_cons_of_mem _ he')
  · have := hsort
    rw [hq] at this
    exact this.of_cons
  · intro e' he'
    simp only [dispatchEffect] at he'
    obtain ⟨r, hr, h1, h2, h3⟩ :=
      hqp e' (by rw [hq]; exact List.mem_cons_of_mem _ he')
    exact ⟨r, hr, h1, h2, h3⟩
  · intro e' he'
    simp only [dispatchEffect] at he'
    rcases List.mem_cons.1 he' with h | h
    · subst h
      obtain ⟨r, hr, h1, h2, h3⟩ := hqp e' hemem
      exact ⟨r, hr, h1, h2, h3⟩
    · obtain ⟨r, hr, h1, h2, h3⟩ := hrp e' h
      exact ⟨r, hr, h1, h2, h3⟩
  · simp only [dispatchEffect]
    rw [hq] at hnd
    have h1 : (e :: rest) ++ s.running = [] ++ e :: (rest ++ s.running) := by
      simp
    rw [h1] at hnd
    have h2 : rest ++ e :: s.running = rest ++ e :: s.running := rfl
    rw [List.map_append, List.map_cons, List.nodup_middle]
    rw [List.map_append, List.map_cons, List.nodup_middle] at hnd
    simpa using hnd
  · intro id' r hr
    exact hterm id' r hr

theorem inv_finishOk {N : Nat} {s : SchedState} {e : QEntry} {r : JobRecord}
    {files : String × String} (hrun : e ∈ s.running)
    (hrec : s.jobs e.jobId = some r) (hinv : Inv N s) :
    Inv N (finishOkEffect s e r files) := by
  obtain ⟨hlen, hcap, hseq, hsort, hqp, hrp, hnd, hterm⟩ := hinv
  rw [List.map_append] at hnd
  obtain ⟨ndq, ndr, disj⟩ := List.nodup_append.1 hnd
  have ndr' : s.running.Nodup := ndr.of_map
  have hpend := hrp e hrun
  obtain ⟨r0, hr0, hst0, hf0, he0⟩ := hpend
  rw [hrec] at hr0
  cases hr0
  refine ⟨?_, ?_, hseq, hsort, ?_, ?_, ?_, ?_⟩
  · simp only [finishOkEffect]
    rw [List.length_erase_of_mem hrun, hlen]
  · exact Nat.le_trans (Nat.sub_le _ _) hcap
  · intro e' he'
    simp only [finishOkEffect] at he'
    obtain ⟨r', hr', h1, h2, h3⟩ := hqp e' he'
    have hne : e'.jobId ≠ e.jobId := by
      intro hcontra
      exact disj (List.mem_map_of_mem _ he') (hcontra ▸ List.mem_map_of_mem _ hrun)
    exact ⟨r', by simpa [finishOkEffect, setJob_ne _ _ hne] using hr', h1, h2, h3⟩
  · intro e' he'
    simp only [finishOkEffect] at he'
    have hmem : e' ∈ s.running := List.mem_of_mem_erase he'
    have hne' : e' ≠ e := ((ndr'.mem_erase_iff).1 he').1
    have hne : e'.jobId ≠ e.jobId := by
      intro hcontra
      exact hne' (List.inj_on_of_nodup_map ndr hmem hrun hcontra)
    obtain ⟨r', hr', h1, h2, h3⟩ := hrp e' hmem
    exact ⟨r', by simpa [finishOkEffect, setJob_ne _ _ hne] using hr', h1, h2, h3⟩
  · simp only [finishOkEffect]
    have hsub : List.Sublist (s.jobQueue ++ s.running.erase e)
        (s.jobQueue ++ s.running) :=
      (List.erase_sublist e s.running).append_left s.jobQueue
    have hnd2 : (List.map QEntry.jobId (s.jobQueue ++ s.running)).Nodup := by
      rw [List.map_append]; exact hnd
    exact hnd2.sublist (hsub.map QEntry.jobId)
  · intro id' r' hr'
    simp only [finishOkEffect] at hr'
    by_cases hid : id' = e.jobId
    · subst hid
      rw [setJob_self] at hr'
      cases hr'
      refine ⟨fun _ => ⟨rfl, he0⟩, fun hcontra => by simp at hcontra, by simp⟩
    · rw [setJob_ne _ _ hid] at hr'
      exact hterm id' r' hr'

theorem inv_finishErr {N : Nat} {s : SchedState} {e : QEntry} {r : JobRecord}
    (hrun : e ∈ s.running) (hrec : s.jobs e.jobId = some r) (hinv : Inv N s) :
    Inv N (finishErrEffect s e r) := by
  obtain ⟨hlen, hcap, hseq, hsort, hqp, hrp, hnd, hterm⟩ := hinv
  rw [List.map_append] at hnd
  obtain ⟨ndq, ndr, disj⟩ := List.nodup_append.1 hnd
  have ndr' : s.running.Nodup := ndr.of_map
  have hpend := hrp e hrun
  obtain ⟨r0, hr0, hst0, hf0, he0⟩ := hpend
  rw [hrec] at hr0
  cases hr0
  refine ⟨?_, ?_, hseq, hsort, ?_, ?_, ?_, ?_⟩
  · simp only [finishErrEffect]
    rw [List.length_erase_of_mem hrun, hlen]
  · exact Nat.le_trans (Nat.sub_le _ _) hcap
  · intro e' he'
    simp only [finishErrEffect] at he'
    obtain ⟨r', hr', h1, h2, h3⟩ := hqp e' he'
    have hne : e'.jobId ≠ e.jobId := by
      intro hcontra
      exact disj (List.mem_map_of_mem _ he') (hcontra ▸ List.mem_map_of_mem _ hrun)
    exact ⟨r', by simpa [finishErrEffect, setJob_ne _ _ hne] using hr', h1, h2, h3⟩
  · intro e' he'
    simp only [finishErrEffect] at he'
    have hmem : e' ∈ s.running := List.mem_of_mem_erase he'
    have hne' : e' ≠ e := ((ndr'.mem_erase_iff).1 he').1
    have hne : e'.jobId ≠ e.jobId := by
      intro hcontra
      exact hne' (List.inj_on_of_nodup_map ndr hmem hrun hcontra)
    obtain ⟨r', hr', h1, h2, h3⟩ := hrp e' hmem
    exact ⟨r', by simpa [finishErrEffect, setJob_ne _ _ hne] using hr', h1, h2, h3⟩
  · simp only [finishErrEffect]
    have hsub : List.Sublist (s.jobQueue ++ s.running.erase e)
        (s.jobQueue ++ s.running) :=
      (List.erase_sublist e s.running).append_left s.jobQueue
    have hnd2 : (List.map QEntry.jobId (s.jobQueue ++ s.running)).Nodup := by
      rw [List.map_append]; exact hnd
    exact hnd2.sublist (hsub.map QEntry.jobId)
  · intro id' r' hr'
    simp only [finishErrEffect] at hr'
    by_cases hid : id' = e.jobId
    · subst hid
      rw [setJob_self] at hr'
      cases hr'
      refine ⟨fun hcontra => by simp at hcontra, fun _ => ⟨hf0, rfl⟩, by simp⟩
    · rw [setJob_ne _ _ hid] at hr'
      exact hterm id' r' hr'

theorem inv_step {N : Nat} {s s' : SchedState} {e : Event} (hinv : Inv N s)
    (hs : Step N s e s') : Inv N s' := by
  cases hs with
  | submit id url m hfresh => exact inv_submit hfresh hinv
  | dispatch e rest hq hcap => exact inv_dispatch hq hcap hinv
  | finishOk e files r hrun hrec => exact inv_finishOk hrun hrec hinv
  | finishErr e r hrun hrec => exact inv_finishErr hrun hrec hinv

theorem inv_reachable {N : Nat} {s : SchedState} (h : Reachable N s) :
    Inv N s := by
  induction h with
  | init => exact inv_init N
  | step h hs ih => exact inv_step ih hs

theorem submit_detail {N : Nat} {s s2 : SchedState} {id url m : String}
    (hstep : Step N s (.submit id url m) s2) :
    s2.jobQueue = s.jobQueue ++ [⟨id, url, m, s.nextSeq⟩] ∧
    s2.jobs = setJob s.jobs id pendingRecord ∧
    s2.activeJobs = s.activeJobs ∧ s2.running = s.running := by
  cases hstep
  exact ⟨rfl, rfl, rfl, rfl⟩

theorem dispatch_detail {N : Nat} {s s2 : SchedState} {e : QEntry}
    (hstep : Step N s (.dispatch e) s2) :
    s.jobQueue = e :: s2.jobQueue ∧ s2.jobs = s.jobs ∧ s.activeJobs < N ∧
    s2.activeJobs = s.activeJobs + 1 ∧ s2.running = e :: s.running := by
  cases hstep with
  | dispatch e rest hq hcap => exact ⟨hq, rfl, hcap, rfl, rfl⟩

theorem finishOk_detail {N : Nat} {s s2 : SchedState} {e : QEntry}
    {files : String × String} (hinv : Inv N s)
    (hstep : Step N s (.finishOk e files) s2) :
    s2.jobs = setJob s.jobs e.jobId
      { status := "completed", files := some files, error := none } ∧
    s2.activeJobs + 1 = s.activeJobs := by
  obtain ⟨hlen, -, -, -, -, hrp, -, -⟩ := hinv
  cases hstep with
  | finishOk e files r hrun hrec =>
    obtain ⟨r0, hr0, hst0, hf0, he0⟩ := hrp e hrun
    rw [hrec] at hr0
    cases hr0
    constructor
    · obtain ⟨st, fi, er⟩ := r
      subst hst0
      subst he0
      rfl
    · have hpos : 0 < s.running.length :=
        List.length_pos.2 (List.ne_nil_of_mem hrun)
      simp only [finishOkEffect]
      omega

theorem finishErr_detail {N : Nat} {s s2 : SchedState} {e : QEntry}
    (hinv : Inv N s) (hstep : Step N s (.finishErr e) s2) :
    s2.jobs = setJob s.jobs e.jobId
      { status := "failed", files := none,
        error := some "Internal server error." } ∧
    s2.activeJobs + 1 = s.activeJobs := by
  obtain ⟨hlen, -, -, -, -, hrp, -, -⟩ := hinv
  cases hstep with
  | finishErr e r hrun hrec =>
    obtain ⟨r0, hr0, hst0, hf0, he0⟩ := hrp e hrun
    rw [hrec] at hr0
    cases hr0
    constructor
    · obtain ⟨st, fi, er⟩ := r
      subst hst0
      subst hf0
      rfl
    · have hpos : 0 < s.running.length :=
        List.length_pos.2 (List.ne_nil_of_mem hrun)
      simp only [finishErrEffect]
      omega

/-! ### A concrete reachable scenario

Three submissions, two dispatches, cap `N = 2` — the burst scenario of the
spec (five-job variant shrunk to three).  Jobs `job-a` and `job-b` target the
same application URL, `job-c` a different one. -/

def urlA : String := "https://a.example"

def manA : String := "https://a.example/manifest.json"

def urlC : String := "https://c.example"

def manC : String := "https://c.example/manifest.json"

def entA : QEntry := ⟨"job-a", urlA, manA, 0⟩

def entB : QEntry := ⟨"job-b", urlA, manA, 1⟩

def entC : QEntry := ⟨"job-c", urlC, manC, 2⟩

def demo1 : SchedState := submitEffect initState "job-a" urlA manA

def demo2 : SchedState := submitEffect demo1 "job-b" urlA manA

def demo3 : SchedState := submitEffect demo2 "job-c" urlC manC

def demo4 : SchedState := dispatchEffect demo3 entA [entB, entC]

def demo5 : SchedState := dispatchEffect demo4 entB [entC]

theorem demo5_reachable : Reachable 2 demo5 :=
  Reachable.step
    (Reachable.step
      (Reachable.step
        (Reachable.step
          (Reachable.step Reachable.init
            (Step.submit initState "job-a" urlA manA rfl))
          (Step.submit demo1 "job-b" urlA manA (by decide)))
        (Step.submit demo2 "job-c" urlC manC (by decide)))
      (Step.dispatch demo3 entA [entB, entC] (by decide) (by decide)))
    (Step.dispatch demo4 entB [entC] (by decide) (by decide))

/-- C1: in every reachable state the number of jobs concurrently executing
the build pipeline (`running`, counted by `activeJobs`) never exceeds the
configured cap `N` (`maxJobs`, default 2); a dispatch fires only while the
count is strictly below `N` and increments it, and each completion or
failure of a dispatched job decrements it exactly once (its entry leaves
`running`). -/
theorem concurrency_cap_invariant (N : Nat) (s : SchedState)
    (h : Reachable N s) :
    s.activeJobs ≤ N ∧ s.activeJobs = s.running.length ∧
    (∀ e s2, Step N s (.dispatch e) s2 →
      s.activeJobs < N ∧ s2.activeJobs = s.activeJobs + 1 ∧
      s2.running = e :: s.running) ∧
    (∀ e files s2, Step N s (.finishOk e files) s2 →
      s2.activeJobs + 1 = s.activeJobs ∧ s2.running = s.running.erase e) ∧
    (∀ e s2, Step N s (.finishErr e) s2 →
      s2.activeJobs + 1 = s.activeJobs ∧ s2.running = s.running.erase e) := by
  have hinv := inv_reachable h
  obtain ⟨hlen, hcap, -, -, -, -, -, -⟩ := hinv
  refine ⟨hcap, hlen, ?_, ?_, ?_⟩
  · intro e s2 hstep
    obtain ⟨-, -, hlt, hinc, hrun⟩ := dispatch_detail hstep
    exact ⟨hlt, hinc, hrun⟩
  · intro e files s2 hstep
    refine ⟨(finishOk_detail (inv_reachable h) hstep).2, ?_⟩
    cases hstep with
    | finishOk e files r hrun hrec => rfl
  · intro e s2 hstep
    refine ⟨(finishErr_detail (inv_reachable h) hstep).2, ?_⟩
    cases hstep with
    | finishErr e r hrun hrec => rfl

/-- Witness for C1 at the concrete burst scenario: with `N = 2` and three
submissions, the reachable state `demo5` has exactly 2 active jobs. -/
theorem concurrency_cap_invariant_witness :
    demo5.activeJobs ≤ 2 ∧ demo5.activeJobs = demo5.running.length :=
  ⟨(concurrency_cap_invariant 2 demo5 demo5_reachable).1,
    (concurrency_cap_invariant 2 demo5 demo5_reachable).2.1⟩

/-- C4: every stored job record in a terminal state has exactly one of
result/error populated — `completed` records carry a files object and a
`none` error, `failed` records carry `none` files and exactly the fixed
generic message "Internal server error." — and both finish transitions
release the concurrency slot (`activeJobs` decremented). -/
theorem terminal_result_xor_error (N : Nat) (s : SchedState)
    (h : Reachable N s) :
    (∀ id r, s.jobs id = some r →
      (r.status = "completed" → r.files.isSome ∧ r.error = none) ∧
      (r.status = "failed" →
        r.files = none ∧ r.error = some "Internal server error.")) ∧
    (∀ e files s2, Step N s (.finishOk e files) s2 →
      s2.jobs e.jobId = some
        { status := "completed", files := some files, error := none } ∧
      s2.activeJobs + 1 = s.activeJobs) ∧
    (∀ e s2, Step N s (.finishErr e) s2 →
      s2.jobs e.jobId = some
        { status := "failed", files := none,
          error := some "Internal server error." } ∧
      s2.activeJobs + 1 = s.activeJobs) := by
  have hinv := inv_reachable h
  refine ⟨?_, ?_, ?_⟩
  · intro id r hr
    obtain ⟨h1, h2, -⟩ := hinv.2.2.2.2.2.2.2 id r hr
    exact ⟨h1, h2⟩
  · intro e files s2 hstep
    obtain ⟨hjobs, hdec⟩ := finishOk_detail hinv hstep
    exact ⟨by rw [hjobs, setJob_self], hdec⟩
  · intro e s2 hstep
    obtain ⟨hjobs, hdec⟩ := finishErr_detail hinv hstep
    exact ⟨by rw [hjobs, setJob_self], hdec⟩

/-- Concrete artifact names returned by a successful pipeline run. -/
def demoFiles : String × String := ("demo.apk", "demo.aab")

/-- State after `job-b` completes successfully out of `demo5`. -/
def demo6 : SchedState := finishOkEffect demo5 entB pendingRecord demoFiles

/-- Witness for C4: completing `job-b` out of the reachable state `demo5`
stores exactly the completed record with the files object and an empty
error, and releases the concurrency slot. -/
theorem terminal_result_xor_error_witness :
    demo6.jobs "job-b" = some
      { status := "completed", files := some demoFiles, error := none } ∧
    demo6.activeJobs + 1 = demo5.activeJobs :=
  (terminal_result_xor_error 2 demo5 demo5_reachable).2.1 entB demoFiles demo6
    (Step.finishOk demo5 entB demoFiles pendingRecord (by decide) (by decide))

/-- C6: queue order is submission order — every submission appends its entry
at the queue tail with a strictly larger submission index, and a dispatch
always removes the head entry, whose submission index is strictly smaller
than that of every job still waiting in the queue. -/
theorem fifo_dispatch_order (N : Nat) (s : SchedState) (h : Reachable N s) :
    (∀ id url m s2, Step N s (.submit id url m) s2 →
      s2.jobQueue = s.jobQueue ++ [⟨id, url, m, s.nextSeq⟩] ∧
      ∀ e ∈ s.jobQueue, e.seq < s.nextSeq) ∧
    (∀ e s2, Step N s (.dispatch e) s2 →
      s.jobQueue = e :: s2.jobQueue ∧ ∀ e2 ∈ s2.jobQueue, e.seq < e2.seq) := by
  have hinv := inv_reachable h
  obtain ⟨-, -, hseq, hsort, -, -, -, -⟩ := hinv
  refine ⟨?_, ?_⟩
  · intro id url m s2 hstep
    exact ⟨(submit_detail hstep).1, hseq⟩
  · intro e s2 hstep
    have hq := (dispatch_detail hstep).1
    refine ⟨hq, ?_⟩
    rw [hq] at hsort
    exact (List.pairwise_cons.1 hsort).1

/-- Witness for C6 at the concrete trace: dispatching from `demo3` removes
the head `entA`, which was submitted before both waiting entries. -/
theorem fifo_dispatch_order_witness :
    demo3.jobQueue = entA :: demo4.jobQueue ∧
    ∀ e2 ∈ demo4.jobQueue, entA.seq < e2.seq :=
  (fifo_dispatch_order 2 demo3
      (Reachable.step
        (Reachable.step
          (Reachable.step Reachable.init
            (Step.submit initState "job-a" urlA manA rfl))
          (Step.submit demo1 "job-b" urlA manA (by decide)))
        (Step.submit demo2 "job-c" urlC manC (by decide)))).2
    entA demo4 (Step.dispatch demo3 entA [entB, entC] (by decide) (by decide))

/-- C8 counterexample: the dispatcher does not transition the popped job to
a `running` status.  In the concrete trace, dispatching `entA` from `demo3`
leaves the stored record of `job-a` entirely unchanged — still the pending
record, whose status is "pending" and in particular not "running" — so the
claimed status path pending → running → terminal does not occur. -/
theorem dispatch_does_not_set_running_status :
    Step 2 demo3 (.dispatch entA) demo4 ∧
    demo3.jobs "job-a" = some pendingRecord ∧
    demo4.jobs "job-a" = some pendingRecord ∧
    pendingRecord.status = "pending" ∧ pendingRecord.status ≠ "running" :=
  ⟨Step.dispatch demo3 entA [entB, entC] (by decide) (by decide), by decide,
    by decide, by decide, by decide⟩

/-- C8 amended: the dispatcher hands the popped job to the pipeline without
writing any status (the `jobs` map is untouched by a dispatch); no stored
record ever holds a "running" status; and the observed status path is
monotonic pending → \x7bcompleted|failed\x7d — a step either leaves a record
unchanged or advances it from "pending" to a terminal status, never
regressing. -/
theorem status_monotonic_never_running (N : Nat) (s : SchedState)
    (h : Reachable N s) :
    (∀ id r, s.jobs id = some r → r.status ≠ "running") ∧
    (∀ e s2, Step N s (.dispatch e) s2 → s2.jobs = s.jobs) ∧
    (∀ ev s2 id r r2, Step N s ev s2 → s.jobs id = some r →
      s2.jobs id = some r2 →
      r2 = r ∨ (r.status = "pending" ∧
        (r2.status = "completed" ∨ r2.status = "failed"))) := by
  have hinv := inv_reachable h
  obtain ⟨-, -, -, -, -, hrp, -, hterm⟩ := hinv
  refine ⟨?_, ?_, ?_⟩
  · intro id r hr
    exact (hterm id r hr).2.2
  · intro e s2 hstep
    exact (dispatch_detail hstep).2.1
  · intro ev s2 id r r2 hstep hr hr2
    cases hstep with
    | submit id' url m hfresh =>
      simp only [submitEffect] at hr2
      by_cases hid : id = id'
      · rw [hid, hfresh] at hr
        exact Option.noConfusion hr
      · rw [setJob_ne _ _ hid] at hr2
        rw [hr] at hr2
        exact Or.inl (Option.some_injective _ hr2).symm
    | dispatch e rest hq hcap =>
      simp only [dispatchEffect] at hr2
      rw [hr] at hr2
      exact Or.inl (Option.some_injective _ hr2).symm
    | finishOk e files r' hrun hrec =>
      simp only [finishOkEffect] at hr2
      by_cases hid : id = e.jobId
      · obtain ⟨r0, hr0, hst0, -, -⟩ := hrp e hrun
        rw [hrec] at hr0
        cases hr0
        rw [hid] at hr
        rw [hr] at hrec
        cases Option.some_injective _ hrec
        rw [hid, setJob_self] at hr2
        cases Option.some_injective _ hr2
        exact Or.inr ⟨hst0, Or.inl rfl⟩
      · rw [setJob_ne _ _ hid] at hr2
        rw [hr] at hr2
        exact Or.inl (Option.some_injective _ hr2).symm
    | finishErr e r' hrun hrec =>
      simp only [finishErrEffect] at hr2
      by_cases hid : id = e.jobId
      · obtain ⟨r0, hr0, hst0, -, -⟩ := hrp e hrun
        rw [hrec] at hr0
        cases hr0
        rw [hid] at hr
        rw [hr] at hrec
        cases Option.some_injective _ hrec
        rw [hid, setJob_self] at hr2
        cases Option.some_injective _ hr2
        exact Or.inr ⟨hst0, Or.inr rfl⟩
      · rw [setJob_ne _ _ hid] at hr2
        rw [hr] at hr2
        exact Or.inl (Option.some_injective _ hr2).symm

/-- Witness for C8 (amended): in the reachable state `demo5` no record holds
a "running" status, and the dispatch out of `demo3` left the map intact. -/
theorem status_monotonic_never_running_witness :
    (∀ id r, demo5.jobs id = some r → r.status ≠ "running") ∧
    demo4.jobs = demo3.jobs :=
  ⟨(status_monotonic_never_running 2 demo5 demo5_reachable).1,
    (status_monotonic_never_running 2 demo3
      (Reachable.step
        (Reachable.step
          (Reachable.step Reachable.init
            (Step.submit initState "job-a" urlA manA rfl))
          (Step.submit demo1 "job-b" urlA manA (by decide)))
        (Step.submit demo2 "job-c" urlC manC (by decide)))).2.1
      entA demo4 (Step.dispatch demo3 entA [entB, entC] (by decide) (by decide))⟩

/-! ### robustFetch

Embedding of `async function robustFetch(url, options = \x7b\x7d, retries = 3)`.
The network is modelled as a function from the attempt number to the outcome
of that `fetch` call: either a rejected promise (network error) or a
resolved response with its `ok` flag and status code. -/

/-- A resolved `fetch` response: its `ok` flag and HTTP status. -/
structure Resp where
  ok : Bool
  status : Nat
  deriving DecidableEq, Repr

/-- Outcome of one underlying `fetch` call. -/
inductive FetchResult where
  | netError (msg : String)
  | resolved (r : Resp)
  deriving DecidableEq, Repr

/-- The body of the `try` block for one attempt: a rejected fetch propagates
its error; a resolved non-ok response throws "HTTP error! status: <n>"; an
ok response is returned. -/
def tryFetch (f : Nat → FetchResult) (attempt : Nat) : Except String Resp :=
  match f attempt with
  | .netError m => .error m
  | .resolved r =>
    if r.ok then .ok r
    else .error ("HTTP error! status: " ++ toString r.status)

/-- Observable trace of one `robustFetch` call: the returned or thrown
outcome (`none` models the `undefined` fall-through when `retries = 0`), the
number of attempts performed, and the list of inter-attempt sleeps in
milliseconds. -/
structure FetchTrace where
  outcome : Option (Except String Resp)
  attemptsMade : Nat
  delaysMs : List Nat
  deriving Repr

/-- The `for (let attempt = 1; attempt <= retries; attempt++)` loop, indexed
by the current attempt number and the number of remaining iterations
(`retries - attempt + 1`); `remaining = 1` exactly when
`attempt === retries`, in which case the failure is rethrown unchanged. -/
def robustFetchGo (f : Nat → FetchResult) (attempt : Nat) :
    Nat → FetchTrace
  | 0 => ⟨none, 0, []⟩
  | remaining + 1 =>
    match tryFetch f attempt with
    | .ok r => ⟨some (.ok r), 1, []⟩
    | .error e =>
      if remaining = 0 then ⟨some (.error e), 1, []⟩
      else
        let t := robustFetchGo f (attempt + 1) remaining
        ⟨t.outcome, t.attemptsMade + 1, 1000 :: t.delaysMs⟩

/-- `robustFetch` with an explicit retry budget (the source default is 3). -/
def robustFetch (f : Nat → FetchResult) (retries : Nat) : FetchTrace :=
  robustFetchGo f 1 retries

/-- Default retry budget of `robustFetch`. -/
def defaultRetries : Nat := 3

/-- C5: `robustFetch` with the default budget of 3 attempts sleeps a fixed
1000 ms between attempts, treats a non-ok status as a failure, returns the
first success immediately with no further attempts (1 attempt if the first
try succeeds, 2 if only the second does), performs exactly 3 attempts when
the first two fail, and when all 3 attempts fail rethrows the third
attempt's failure unchanged. -/
theorem robustFetch_retry_contract (f : Nat → FetchResult) :
    defaultRetries = 3 ∧
    (∀ r, tryFetch f 1 = .ok r →
      robustFetch f 3 = ⟨some (.ok r), 1, []⟩) ∧
    (∀ e1 r, tryFetch f 1 = .error e1 → tryFetch f 2 = .ok r →
      robustFetch f 3 = ⟨some (.ok r), 2, [1000]⟩) ∧
    (∀ e1 e2 r, tryFetch f 1 = .error e1 → tryFetch f 2 = .error e2 →
      tryFetch f 3 = .ok r →
      robustFetch f 3 = ⟨some (.ok r), 3, [1000, 1000]⟩) ∧
    (∀ e1 e2 e3, tryFetch f 1 = .error e1 → tryFetch f 2 = .error e2 →
      tryFetch f 3 = .error e3 →
      robustFetch f 3 = ⟨some (.error e3), 3, [1000, 1000]⟩) := by
  refine ⟨rfl, ?_, ?_, ?_, ?_⟩
  · intro r h1
    simp [robustFetch, robustFetchGo, h1]
  · intro e1 r h1 h2
    simp [robustFetch, robustFetchGo, h1, h2]
  · intro e1 e2 r h1 h2 h3
    simp [robustFetch, robustFetchGo, h1, h2, h3]
  · intro e1 e2 e3 h1 h2 h3
    simp [robustFetch, robustFetchGo, h1, h2, h3]

/-- Witness for C5: a target failing with HTTP 500 on attempts 1 and 2 and
succeeding on attempt 3 returns the success using exactly 3 attempts with
two 1-second delays. -/
theorem robustFetch_retry_contract_witness :
    robustFetch
      (fun n => if n < 3 then FetchResult.resolved ⟨false, 500⟩
                else FetchResult.resolved ⟨true, 200⟩) 3 =
      ⟨some (.ok ⟨true, 200⟩), 3, [1000, 1000]⟩ :=
  (robustFetch_retry_contract _).2.2.2.1 "HTTP error! status: 500"
    "HTTP error! status: 500" ⟨true, 200⟩ rfl rfl rfl

/-! ### The POST /convert endpoint

Embedding of the `app.post('/convert', ...)` handler of the active variant.
A request body field is `none` when the field is missing or not a string
(the `typeof url !== 'string'` check); URL well-formedness (`new URL(...)`
succeeding) is an external platform collaborator modelled as a predicate. -/

/-- The two request body fields consumed by the handler. -/
structure ConvertReq where
  url : Option String
  manifestUrl : Option String
  deriving DecidableEq, Repr

/-- Responses of the handler: 400 with field-level details, 400 "Invalid URL
format.", or 200 with the job id. -/
inductive ConvertRes where
  | badRequest (details : List (String × String))
  | invalidUrlFormat
  | okJob (jobId : String)
  deriving DecidableEq, Repr

/-- JavaScript `String.prototype.trim`: strip leading and trailing
whitespace. -/
def jsTrim (s : String) : String :=
  ((s.data.dropWhile Char.isWhitespace).reverse.dropWhile
    Char.isWhitespace).reverse.asString

/-- Detail entry pushed onto `missingParams` for one field: present when the
field is missing, not a string, or trims to the empty string. -/
def missingOf (v : Option String) (fieldName : String) :
    List (String × String) :=
  match v with
  | none => [(fieldName, "string")]
  | some s => if jsTrim s = "" then [(fieldName, "string")] else []

/-- The synchronous part of the `while` loop of `processQueue`: repeatedly
pop the queue head and increment `activeJobs` while strictly below the cap;
returns the final counter, running list and remaining queue. -/
def drainQueue (N active : Nat) (running : List QEntry) :
    List QEntry → Nat × List QEntry × List QEntry
  | [] => (active, running, [])
  | e :: rest =>
    if active < N then drainQueue N (active + 1) (e :: running) rest
    else (active, running, e :: rest)

/-- Effect of one synchronous `processQueue()` call on the scheduler
state. -/
def processQueue (N : Nat) (s : SchedState) : SchedState :=
  let d := drainQueue N s.activeJobs s.running s.jobQueue
  { s with activeJobs := d.1, running := d.2.1, jobQueue := d.2.2 }

/-- The enqueue block of the handler: create the pending record, persist it
(`insertJob`), push the queue entry at the tail.  Identical to
`submitEffect`. -/
def enqueueJob (s : SchedState) (jobId url manifestUrl : String) :
    SchedState :=
  submitEffect s jobId url manifestUrl

/-- The `/convert` handler: validate, then enqueue, trigger `processQueue`,
and respond `\x7bsuccess, jobId\x7d` immediately.  `validURL` models
`new URL(...)` succeeding and `freshId` the generated uuid. -/
def convert (N : Nat) (validURL : String → Bool) (freshId : String)
    (req : ConvertReq) (s : SchedState) : ConvertRes × SchedState :=
  let missingParams := missingOf req.url "url" ++
    missingOf req.manifestUrl "manifestUrl"
  if missingParams.length > 0 then (.badRequest missingParams, s)
  else
    match req.url, req.manifestUrl with
    | some u, some m =>
      if validURL u && validURL m then
        (.okJob freshId, processQueue N (enqueueJob s freshId u m))
      else (.invalidUrlFormat, s)
    | _, _ => (.badRequest missingParams, s)

/-- C7: the handler rejects synchronously with a 400 carrying field-level
details when `url` or `manifestUrl` is missing/empty, and with a 400 when
either is not a well-formed URL, in both cases enqueuing nothing (state
unchanged); otherwise it creates a pending job under the fresh id, appends
its entry at the queue tail, triggers a dispatch attempt (`processQueue`)
and returns the job id immediately. -/
theorem convert_endpoint_contract (N : Nat) (validURL : String → Bool)
    (freshId : String) (req : ConvertReq) (s : SchedState) :
    (missingOf req.url "url" ++ missingOf req.manifestUrl "manifestUrl" ≠ [] →
      convert N validURL freshId req s =
        (.badRequest (missingOf req.url "url" ++
          missingOf req.manifestUrl "manifestUrl"), s)) ∧
    (∀ u m, req.url = some u → req.manifestUrl = some m →
      jsTrim u ≠ "" → jsTrim m ≠ "" → (validURL u && validURL m) = false →
      convert N validURL freshId req s = (.invalidUrlFormat, s)) ∧
    (∀ u m, req.url = some u → req.manifestUrl = some m →
      jsTrim u ≠ "" → jsTrim m ≠ "" → validURL u = true → validURL m = true →
      convert N validURL freshId req s =
        (.okJob freshId, processQueue N (enqueueJob s freshId u m)) ∧
      (enqueueJob s freshId u m).jobs freshId = some pendingRecord ∧
      (enqueueJob s freshId u m).jobQueue =
        s.jobQueue ++ [⟨freshId, u, m, s.nextSeq⟩]) := by
  refine ⟨?_, ?_, ?_⟩
  · intro hne
    have hlen : 0 < (missingOf req.url "url" ++
        missingOf req.manifestUrl "manifestUrl").length :=
      List.length_pos.2 hne
    simp only [convert]
    rw [if_pos hlen]
  · intro u m hu hm hut hmt hv
    have h0 : missingOf req.url "url" ++
        missingOf req.manifestUrl "manifestUrl" = [] := by
      simp [missingOf, hu, hm, hut, hmt]
    simp only [convert, h0]
    simp [hu, hm, hv]
  · intro u m hu hm hut hmt hvu hvm
    have h0 : missingOf req.url "url" ++
        missingOf req.manifestUrl "manifestUrl" = [] := by
      simp [missingOf, hu, hm, hut, hmt]
    refine ⟨?_, ?_, rfl⟩
    · simp only [convert, h0]
      simp [hu, hm, hvu, hvm]
    · simp [enqueueJob, submitEffect, setJob_self]

/-- Witness for C7: a valid submission to the empty server with fresh id
"job-1" is accepted, stored pending, appended at the (empty) queue tail and
a dispatch is attempted. -/
theorem convert_endpoint_contract_witness :
    convert 2 (fun _ => true) "job-1"
        ⟨some "https://a.example", some "https://a.example/manifest.json"⟩
        initState =
      (.okJob "job-1",
        processQueue 2 (enqueueJob initState "job-1" "https://a.example"
          "https://a.example/manifest.json")) ∧
    (enqueueJob initState "job-1" "https://a.example"
        "https://a.example/manifest.json").jobs "job-1" =
      some pendingRecord ∧
    (enqueueJob initState "job-1" "https://a.example"
        "https://a.example/manifest.json").jobQueue =
      initState.jobQueue ++
        [⟨"job-1", "https://a.example", "https://a.example/manifest.json",
          initState.nextSeq⟩] :=
  (convert_endpoint_contract 2 (fun _ => true) "job-1"
      ⟨some "https://a.example", some "https://a.example/manifest.json"⟩
      initState).2.2
    "https://a.example" "https://a.example/manifest.json" rfl rfl (by decide)
    (by decide) rfl rfl

/-! ### Signing-identity lookup and creation

Embedding of the signing section of `processConversionJob`: check
`fs.existsSync(keystorePath)`, if the file exists read the `keystores` row
for the domain, and if no usable options were found generate a password
`domain + randomPart`, create the key files at
`keystoreRootDir/<domain>.jks` and `INSERT OR REPLACE` the row.  The state
for one domain is whether its keystore file exists plus its database row;
`randomPart` models `Math.random().toString(36).substring(2, 8)`. -/

/-- One row of the `keystores` table. -/
structure KeystoreRow where
  domain : String
  jobId : String
  keystorePath : String
  password : String
  keypassword : String
  fullName : String
  organizationalUnit : String
  organization : String
  country : String
  deriving DecidableEq, Repr

/-- The keyOptions object handed to `KeyTool.createSigningKey` and
`JarSigner.sign` (`keyAlias` embeds the `alias` field). -/
structure KeyOptionsR where
  path : String
  keyAlias : String
  password : String
  keypassword : String
  fullName : String
  organizationalUnit : String
  organization : String
  country : String
  deriving DecidableEq, Repr

/-- Per-domain persistent signing state: presence of the keystore file and
the `keystores` row. -/
structure KeystoreState where
  fileExists : Bool
  row : Option KeystoreRow
  deriving DecidableEq, Repr

/-- The deterministic keystore location
`path.join(keystoreRootDir, domain + '.jks')`. -/
def keystorePathOf (root domain : String) : String :=
  root ++ "/" ++ domain ++ ".jks"

/-- The keyOptions resolved from a stored row (the `db.get` callback). -/
def optionsOfRow (row : KeystoreRow) : KeyOptionsR :=
  { path := row.keystorePath, keyAlias := row.domain,
    password := row.password, keypassword := row.keypassword,
    fullName := row.fullName, organizationalUnit := row.organizationalUnit,
    organization := row.organization, country := row.country }

/-- The check phase: `keyOptions` is non-null only when the keystore file
exists and the `keystores` table has a row for the domain. -/
def lookupKeyOptions (st : KeystoreState) : Option KeyOptionsR :=
  if st.fileExists then
    match st.row with
    | some row => some (optionsOfRow row)
    | none => none
  else none

/-- The fresh keyOptions generated when none were found. -/
def freshKeyOptions (root domain randomPart : String) : KeyOptionsR :=
  { path := keystorePathOf root domain, keyAlias := domain,
    password := domain ++ randomPart, keypassword := domain ++ randomPart,
    fullName := domain, organizationalUnit := "Development",
    organization := "DefaultOrg", country := "US" }

/-- The row persisted by the `INSERT OR REPLACE` after key creation. -/
def rowOfFresh (root domain jobId randomPart : String) : KeystoreRow :=
  { domain := domain, jobId := jobId,
    keystorePath := keystorePathOf root domain,
    password := domain ++ randomPart, keypassword := domain ++ randomPart,
    fullName := domain, organizationalUnit := "Development",
    organization := "DefaultOrg", country := "US" }

/-- The create phase: generate the password, materialize the key files
(`createSigningKey` with overwrite) and persist the row.  It does not
re-check the store — it runs unconditionally once the check phase observed
no usable options. -/
def createIdentity (root domain jobId randomPart : String) :
    KeyOptionsR × KeystoreState :=
  (freshKeyOptions root domain randomPart,
    { fileExists := true, row := some (rowOfFresh root domain jobId randomPart) })

/-- The full sequential lookup/create-if-absent sequence of one job. -/
def getOrCreateIdentity (root domain jobId randomPart : String)
    (st : KeystoreState) : KeyOptionsR × KeystoreState :=
  match lookupKeyOptions st with
  | some k => (k, st)
  | none => createIdentity root domain jobId randomPart

/-- C3: when the keystore file and row for the domain already exist the
stored record is returned unchanged (same path, alias, password and key
password; state untouched); only when the identity is absent are fresh
options generated, materialized at the deterministic path
`<root>/<domain>.jks` with alias = domain and password = domain ++
randomPart, and persisted; consequently a second sequential build for the
same domain reuses byte-for-byte the credentials created by the first,
regardless of its own fresh random part. -/
theorem signing_identity_get_or_create (root domain j1 j2 rp1 rp2 : String)
    (row : KeystoreRow) :
    (∀ st : KeystoreState, st.fileExists = true → st.row = some row →
      getOrCreateIdentity root domain j2 rp2 st = (optionsOfRow row, st)) ∧
    (∀ st : KeystoreState, lookupKeyOptions st = none →
      getOrCreateIdentity root domain j1 rp1 st =
        (freshKeyOptions root domain rp1,
          ⟨true, some (rowOfFresh root domain j1 rp1)⟩) ∧
      (freshKeyOptions root domain rp1).path = keystorePathOf root domain ∧
      (freshKeyOptions root domain rp1).keyAlias = domain ∧
      (freshKeyOptions root domain rp1).password = domain ++ rp1 ∧
      (freshKeyOptions root domain rp1).keypassword = domain ++ rp1) ∧
    ((getOrCreateIdentity root domain j2 rp2
        (getOrCreateIdentity root domain j1 rp1 ⟨false, none⟩).2).1 =
      (getOrCreateIdentity root domain j1 rp1 ⟨false, none⟩).1 ∧
     (getOrCreateIdentity root domain j2 rp2
        (getOrCreateIdentity root domain j1 rp1 ⟨false, none⟩).2).2 =
      (getOrCreateIdentity root domain j1 rp1 ⟨false, none⟩).2) := by
  refine ⟨?_, ?_, ?_, ?_⟩
  · intro st hf hr
    simp [getOrCreateIdentity, lookupKeyOptions, hf, hr]
  · intro st hl
    exact ⟨by simp [getOrCreateIdentity, hl, createIdentity], rfl, rfl, rfl,
      rfl⟩
  · simp [getOrCreateIdentity, lookupKeyOptions, createIdentity, rowOfFresh,
      optionsOfRow, freshKeyOptions]
  · simp [getOrCreateIdentity, lookupKeyOptions, createIdentity]

/-- Witness for C3: for domain "a.example" under root "keystores", the
second sequential build returns exactly the record persisted by the first
(path "keystores/a.example.jks", alias "a.example", password
"a.exampleabc123"), even though its own random part differs. -/
theorem signing_identity_get_or_create_witness :
    (getOrCreateIdentity "keystores" "a.example" "job-2" "zzz999"
      ⟨true, some (rowOfFresh "keystores" "a.example" "job-1" "abc123")⟩) =
      (optionsOfRow (rowOfFresh "keystores" "a.example" "job-1" "abc123"),
        ⟨true, some (rowOfFresh "keystores" "a.example" "job-1" "abc123")⟩) :=
  (signing_identity_get_or_create "keystores" "a.example" "job-1" "job-2"
      "abc123" "zzz999"
      (rowOfFresh "keystores" "a.example" "job-1" "abc123")).1
    ⟨true, some (rowOfFresh "keystores" "a.example" "job-1" "abc123")⟩ rfl rfl

/-- C2 (defect witnessed at a concrete input): the lookup/create-if-absent
sequence has no per-domain mutual exclusion — two jobs for "a.example"
dispatched concurrently can both run the check phase against the same
initial state (no keystore file, no row), both observe "absent", and each
then runs the unconditional create phase, producing two distinct
signing-identity records with different passwords; the second
`INSERT OR REPLACE` overwrites the first job's persisted row, so the two
jobs sign with different keys. -/
theorem signing_identity_race_two_creations :
    lookupKeyOptions ⟨false, none⟩ = none ∧
    (getOrCreateIdentity "keystores" "a.example" "job-a" "abc123"
      ⟨false, none⟩).1.password = "a.exampleabc123" ∧
    (getOrCreateIdentity "keystores" "a.example" "job-b" "xyz789"
      ⟨false, none⟩).1.password = "a.examplexyz789" ∧
    (getOrCreateIdentity "keystores" "a.example" "job-a" "abc123"
        ⟨false, none⟩).1 ≠
      (getOrCreateIdentity "keystores" "a.example" "job-b" "xyz789"
        ⟨false, none⟩).1 ∧
    (getOrCreateIdentity "keystores" "a.example" "job-b" "xyz789"
        ⟨false, none⟩).2.row ≠
      (getOrCreateIdentity "keystores" "a.example" "job-a" "abc123"
        ⟨false, none⟩).2.row := by
  refine ⟨rfl, rfl, rfl, by decide, by decide⟩

/-! ### Output artifact naming

Embedding of
`const urlHash = Buffer.from(job.url).toString('base64').replace(/[\/\+]/g, '_')`
and the output paths `<urlHash>_<timestamp>.apk` / `.aab`. -/

/-- Character of the standard base64 alphabet for one sextet. -/
def b64Char (n : Nat) : Char :=
  ("ABCDEFGHIJKLMNOPQRSTUVWXYZabcdefghijklmnopqrstuvwxyz0123456789+/").data.getD
    n '='

/-- RFC 4648 base64 of a byte list, as produced by
`Buffer.toString('base64')`. -/
def base64Encode : List Nat → List Char
  | [] => []
  | [a] => [b64Char (a / 4), b64Char (a % 4 * 16), '=', '=']
  | [a, b] =>
    [b64Char (a / 4), b64Char (a % 4 * 16 + b / 16), b64Char (b % 16 * 4), '=']
  | a :: b :: c :: rest =>
    b64Char (a / 4) :: b64Char (a % 4 * 16 + b / 16) ::
      b64Char (b % 16 * 4 + c / 64) :: b64Char (c % 64) :: base64Encode rest

/-- UTF-8 bytes of a string (`Buffer.from(url)`), as numbers. -/
def utf8Bytes (s : String) : List Nat :=
  (String.toUTF8 s).toList.map (fun b => b.toNat)

/-- The `urlHash` of a job: base64 of the url bytes with every '/' and '+'
replaced by '_'. -/
def urlHash (url : String) : String :=
  ((base64Encode (utf8Bytes url)).map
    (fun c => if c = '/' ∨ c = '+' then '_' else c)).asString

/-- Output APK filename `urlHash_timestamp.apk` (template-literal
stringification of the integer `Date.now()` timestamp is its decimal
representation). -/
def outputApkName (url : String) (timestamp : Nat) : String :=
  urlHash url ++ "_" ++ Nat.repr timestamp ++ ".apk"

/-- Output AAB filename `urlHash_timestamp.aab`. -/
def outputAabName (url : String) (timestamp : Nat) : String :=
  urlHash url ++ "_" ++ Nat.repr timestamp ++ ".aab"

theorem digitChar_ne_underscore {n : Nat} (h : n < 10) :
    Nat.digitChar n ≠ '_' := by
  interval_cases n <;> decide

theorem digitChar_val {n : Nat} (h : n < 10) :
    (Nat.digitChar n).toNat - 48 = n := by
  interval_cases n <;> decide

theorem toDigitsCore_shift (n : Nat) : ∀ (f : Nat) (ds : List Char),
    n < f →
    Nat.toDigitsCore 10 f n ds = Nat.toDigitsCore 10 (n + 1) n [] ++ ds := by
  induction n using Nat.strong_induction_on with
  | _ n ih =>
    intro f ds hf
    match f, hf with
    | f + 1, _ =>
      simp only [Nat.toDigitsCore]
      by_cases hz : n / 10 = 0
      · simp [hz]
      · have hn1 : 0 < n := by omega
        have hlt : n / 10 < n := Nat.div_lt_self hn1 (by omega)
        have hf1 : n / 10 < f := by omega
        rw [if_neg hz, if_neg hz, ih (n / 10) hlt f _ hf1,
          ih (n / 10) hlt n _ hlt]
        simp

theorem toDigits_unfold (n : Nat) : Nat.toDigits 10 n =
    if n < 10 then [Nat.digitChar n]
    else Nat.toDigits 10 (n / 10) ++ [Nat.digitChar (n % 10)] := by
  show Nat.toDigitsCore 10 (n + 1) n [] = _
  simp only [Nat.toDigitsCore]
  by_cases hz : n / 10 = 0
  · have h10 : n < 10 := by omega
    have hmod : n % 10 = n := Nat.mod_eq_of_lt h10
    rw [if_pos hz, if_pos h10, hmod]
  · have h10 : ¬ n < 10 := by omega
    have hn1 : 0 < n := by omega
    have hlt : n / 10 < n := Nat.div_lt_self hn1 (by omega)
    rw [if_neg hz, if_neg h10]
    exact toDigitsCore_shift (n / 10) n _ hlt

/-- Numeric value of a decimal digit string. -/
def decimalVal (l : List Char) : Nat :=
  l.foldl (fun acc c => acc * 10 + (c.toNat - 48)) 0

theorem decimalVal_toDigits (n : Nat) :
    decimalVal (Nat.toDigits 10 n) = n := by
  induction n using Nat.strong_induction_on with
  | _ n ih =>
    rw [toDigits_unfold]
    by_cases h10 : n < 10
    · rw [if_pos h10]
      simpa [decimalVal] using digitChar_val h10
    · rw [if_neg h10]
      have hn1 : 0 < n := by omega
      have hlt : n / 10 < n := Nat.div_lt_self hn1 (by omega)
      have hmod : n % 10 < 10 := Nat.mod_lt n (by omega)
      simp only [decimalVal, List.foldl_append, List.foldl_cons,
        List.foldl_nil]
      have hval := ih (n / 10) hlt
      simp only [decimalVal] at hval
      rw [hval, digitChar_val hmod]
      omega

theorem toDigits_no_underscore (n : Nat) : '_' ∉ Nat.toDigits 10 n := by
  induction n using Nat.strong_induction_on with
  | _ n ih =>
    rw [toDigits_unfold]
    by_cases h10 : n < 10
    · rw [if_pos h10]
      intro hmem
      rw [List.mem_singleton] at hmem
      exact digitChar_ne_underscore h10 hmem.symm
    · rw [if_neg h10]
      have hn1 : 0 < n := by omega
      have hlt : n / 10 < n := Nat.div_lt_self hn1 (by omega)
      have hmod : n % 10 < 10 := Nat.mod_lt n (by omega)
      intro hmem
      rcases List.mem_append.1 hmem with h | h
      · exact ih (n / 10) hlt h
      · rw [List.mem_singleton] at h
        exact digitChar_ne_underscore hmod h.symm

theorem natRepr_data (n : Nat) : (Nat.repr n).data = Nat.toDigits 10 n := rfl

theorem natRepr_inj {m n : Nat} (h : Nat.repr m = Nat.repr n) : m = n := by
  have hd : Nat.toDigits 10 m = Nat.toDigits 10 n := by
    rw [← natRepr_data, ← natRepr_data, h]
  have := congrArg decimalVal hd
  rwa [decimalVal_toDigits, decimalVal_toDigits] at this

theorem append_cons_underscore_inj :
    ∀ (a b c d : List Char), '_' ∉ b → '_' ∉ d →
      a ++ '_' :: b = c ++ '_' :: d → a = c ∧ b = d := by
  intro a
  induction a with
  | nil =>
    intro b c d hb hd h
    cases c with
    | nil =>
      simp only [List.nil_append, List.cons.injEq] at h
      exact ⟨rfl, h.2⟩
    | cons x c' =>
      simp only [List.nil_append, List.cons_append, List.cons.injEq] at h
      obtain ⟨-, hb'⟩ := h
      exact absurd (hb' ▸ List.mem_append_right c' (List.mem_cons_self _ _)) hb
  | cons x a' ih =>
    intro b c d hb hd h
    cases c with
    | nil =>
      simp only [List.cons_append, List.nil_append, List.cons.injEq] at h
      obtain ⟨-, hd'⟩ := h
      exact absurd (hd' ▸ List.mem_append_right a' (List.mem_cons_self _ _)) hd
    | cons y c' =>
      simp only [List.cons_append, List.cons.injEq] at h
      obtain ⟨hxy, h'⟩ := h
      obtain ⟨h1, h2⟩ := ih b c' d hb hd h'
      exact ⟨by rw [hxy, h1], h2⟩

theorem underscore_name_inj (a b : String) (t1 t2 : Nat) (p : String)
    (hp : '_' ∉ p.data)
    (h : a ++ "_" ++ Nat.repr t1 ++ p = b ++ "_" ++ Nat.repr t2 ++ p) :
    a = b ∧ t1 = t2 := by
  have hd := congrArg String.data h
  simp only [String.data_append, natRepr_data] at hd
  rw [List.append_assoc, List.append_assoc, List.append_assoc,
    List.append_assoc, List.singleton_append, List.singleton_append] at hd
  have hm1 : '_' ∉ Nat.toDigits 10 t1 ++ p.data := by
    intro hmem
    rcases List.mem_append.1 hmem with hx | hx
    · exact toDigits_no_underscore t1 hx
    · exact hp hx
  have hm2 : '_' ∉ Nat.toDigits 10 t2 ++ p.data := by
    intro hmem
    rcases List.mem_append.1 hmem with hx | hx
    · exact toDigits_no_underscore t2 hx
    · exact hp hx
  obtain ⟨h1, h2⟩ := append_cons_underscore_inj _ _ _ _ hm1 hm2 hd
  refine ⟨String.ext h1, ?_⟩
  have hds : Nat.toDigits 10 t1 = Nat.toDigits 10 t2 :=
    List.append_cancel_right h2
  exact natRepr_inj (String.ext (by rw [natRepr_data, natRepr_data, hds]))

/-- C9 counterexample: two distinct jobs can execute concurrently for the
same source URL (both `entA` and `entB` are in `running` in the reachable
state `demo5`), and when their builds start in the same millisecond
(`Date.now()` returning the same timestamp) their output filenames are
identical — the claimed no-collision guarantee fails. -/
theorem output_name_collision_concurrent :
    Reachable 2 demo5 ∧ entA ∈ demo5.running ∧ entB ∈ demo5.running ∧
    entA.jobId ≠ entB.jobId ∧ entA.url = entB.url ∧
    outputApkName entA.url 1700000000000 =
      outputApkName entB.url 1700000000000 ∧
    outputAabName entA.url 1700000000000 =
      outputAabName entB.url 1700000000000 :=
  ⟨demo5_reachable, by decide, by decide, by decide, rfl, rfl, rfl⟩

/-- C9 amended: the output filenames are derived deterministically as
`urlHash_timestamp.apk/.aab` where `urlHash` is the base64 of the URL with
'/' and '+' replaced by '_'; two concurrently executing jobs never collide
on output filenames provided they differ in URL hash or in build-start
timestamp (collisions occur exactly when both coincide, e.g. two jobs for
the same URL started in the same millisecond). -/
theorem output_names_injective (u1 u2 : String) (t1 t2 : Nat)
    (h : urlHash u1 ≠ urlHash u2 ∨ t1 ≠ t2) :
    outputApkName u1 t1 ≠ outputApkName u2 t2 ∧
    outputAabName u1 t1 ≠ outputAabName u2 t2 := by
  constructor
  · intro heq
    obtain ⟨h1, h2⟩ := underscore_name_inj (urlHash u1) (urlHash u2) t1 t2
      ".apk" (by decide) heq
    rcases h with hc | hc
    · exact hc h1
    · exact hc h2
  · intro heq
    obtain ⟨h1, h2⟩ := underscore_name_inj (urlHash u1) (urlHash u2) t1 t2
      ".aab" (by decide) heq
    rcases h with hc | hc
    · exact hc h1
    · exact hc h2

/-- Witness for C9 (amended): the same URL built at two different
millisecond timestamps yields distinct output filenames. -/
theorem output_names_injective_witness :
    outputApkName "https://a.example" 1 ≠ outputApkName "https://a.example" 2 ∧
    outputAabName "https://a.example" 1 ≠ outputAabName "https://a.example" 2 :=
  output_names_injective "https://a.example" "https://a.example" 1 2
    (Or.inr (by decide))

/-! ### The GET /download/:filename endpoint

Embedding of
`const filePath = path.join(__dirname, '..', config.outputDir, req.params.filename)`
followed by the existence check and `res.download(filePath)`.  Paths are
modelled as segment lists relative to the filesystem root; `path.join`
concatenates its arguments with '/' and then normalizes, resolving '.'
and '..' segments ('..' above the root of an absolute path is dropped). -/

/-- Normalization of an absolute path given as raw segments (Node
`path.normalize` on an absolute path). -/
def normSegs (segs : List String) : List String :=
  segs.foldl
    (fun acc seg =>
      if seg = "" ∨ seg = "." then acc
      else if seg = ".." then acc.dropLast
      else acc ++ [seg])
    []

/-- Split a character list at every occurrence of a separator. -/
def splitCharsOn (sep : Char) : List Char → List (List Char)
  | [] => [[]]
  | c :: rest =>
    if c = sep then [] :: splitCharsOn sep rest
    else
      match splitCharsOn sep rest with
      | [] => [[c]]
      | h :: t => (c :: h) :: t

/-- Split a path string into its '/'-separated raw segments. -/
def slashSegs (s : String) : List String :=
  (splitCharsOn '/' s.data).map List.asString

/-- The served path: `path.join(__dirname, '..', config.outputDir,
filename)` with `__dirname` given as absolute segments. -/
def resolveDownloadPath (dirname : List String) (outputDir filename : String) :
    List String :=
  normSegs (dirname ++ [".."] ++ slashSegs outputDir ++ slashSegs filename)

/-- The output directory root `path.join(__dirname, '..',
config.outputDir)`. -/
def outputRootSegs (dirname : List String) (outputDir : String) :
    List String :=
  normSegs (dirname ++ [".."] ++ slashSegs outputDir)

/-- Responses of the download endpoint: 404 or `res.download` of a path. -/
inductive DownloadRes where
  | notFound
  | fileDownload (p : List String)
  deriving DecidableEq, Repr

/-- The `/download/:filename` handler: 404 when nothing exists at the
resolved path, otherwise serve the file at that path. -/
def downloadEndpoint (dirname : List String) (outputDir filename : String)
    (fileOnDisk : List String → Bool) : DownloadRes :=
  let filePath := resolveDownloadPath dirname outputDir filename
  if fileOnDisk filePath then .fileDownload filePath else .notFound

/-- C10 counterexample: with the application at `/app/src` and output
directory `output`, the request filename "../jobs.sqlite" resolves to
`/app/jobs.sqlite` — outside the output directory `/app/output` — yet the
endpoint serves that file (the SQLite job store, which the application
itself creates at exactly that path) instead of answering not-found. -/
theorem download_traversal_escape :
    downloadEndpoint ["app", "src"] "output" "../jobs.sqlite"
        (fun p => p == ["app", "jobs.sqlite"]) =
      .fileDownload ["app", "jobs.sqlite"] ∧
    (outputRootSegs ["app", "src"] "output").isPrefixOf
      ["app", "jobs.sqlite"] = false := by
  decide

/-- C10 amended: the endpoint serves exactly the normalized join of the
output directory with the raw client-supplied filename — it answers
not-found precisely when no file exists at that resolved path, and
otherwise returns the file at that path even when `..` segments make it
resolve outside the output directory (no containment check is
performed). -/
theorem download_serves_resolved_path (dirname : List String)
    (outputDir filename : String) (fileOnDisk : List String → Bool) :
    (downloadEndpoint dirname outputDir filename fileOnDisk = .notFound ↔
      fileOnDisk (resolveDownloadPath dirname outputDir filename) = false) ∧
    (∀ p, downloadEndpoint dirname outputDir filename fileOnDisk =
        .fileDownload p →
      p = resolveDownloadPath dirname outputDir filename ∧
        fileOnDisk p = true) := by
  cases hb : fileOnDisk (resolveDownloadPath dirname outputDir filename) with
  | false =>
    refine ⟨?_, ?_⟩
    · simp [downloadEndpoint, hb]
    · intro p hp
      simp [downloadEndpoint, hb] at hp
  | true =>
    refine ⟨?_, ?_⟩
    · simp [downloadEndpoint, hb]
    · intro p hp
      simp only [downloadEndpoint, hb, if_true] at hp
      cases hp
      exact ⟨rfl, hb⟩

/-- Witness for C10 (amended): a filename that resolves to a path where no
file exists is answered not-found. -/
theorem download_serves_resolved_path_witness :
    downloadEndpoint ["app", "src"] "output" "missing.apk" (fun _ => false) =
      .notFound ↔
    (fun _ => false) (resolveDownloadPath ["app", "src"] "output"
      "missing.apk") = false :=
  (download_serves_resolved_path ["app", "src"] "output" "missing.apk"
    (fun _ => false)).1

end NodeBubblewrap
